import Mathlib

/-
  Verification development for the py_ml repository: a shallow embedding of
  `logistic_regression.py` (class LogisticRegression) and
  `one_hidden_layer_nn.py` (class OneHiddenLayerNN) over exact real
  arithmetic, with theorems settling the specification's claims.

  Matrices are lists of rows of reals; numpy's fallible dispatch (an
  activation-name lookup that can return None) is embedded in Option.
-/

noncomputable section

/-- A dense real vector (one numpy 1-D array / one matrix row). -/
abbrev Vec := List ℝ

/-- A dense real matrix: a list of rows. -/
abbrev Mat := List (List ℝ)

/-- Dot product of two vectors, `np.dot` on 1-D arrays. -/
def dot (v w : Vec) : ℝ := (List.zipWith (· * ·) v w).sum

/-- Number of columns of a matrix (`X.shape[1]` for a rectangular array). -/
def ncols (X : Mat) : Nat := (X.headD []).length

/-- Matrix transpose (`X.T`): column `j` collects entry `j` of every row. -/
def transpose (X : Mat) : Mat :=
  (List.range (ncols X)).map (fun j => X.map (fun r => r.getD j 0))

/-- Matrix–vector product `np.dot(X, W)` for a 1-D `W`. -/
def matVec (X : Mat) (w : Vec) : Vec := X.map (fun r => dot r w)

/-- Matrix–matrix product `np.dot(A, B)`. -/
def matMul (A B : Mat) : Mat :=
  A.map (fun r => (transpose B).map (fun c => dot r c))

/-- Elementwise vector subtraction (numpy `-` on same-shape 1-D arrays). -/
def vsub (v w : Vec) : Vec := List.zipWith (· - ·) v w

/-- Scalar times vector (numpy scalar broadcast `a * v`). -/
def vsmul (a : ℝ) (v : Vec) : Vec := v.map (fun t => a * t)

/-- Vector divided entrywise by a natural number (numpy `v / n`). -/
def vdivN (v : Vec) (n : Nat) : Vec := v.map (fun t => t / (n : ℝ))

/-- Elementwise matrix subtraction. -/
def msub (A B : Mat) : Mat := List.zipWith vsub A B

/-- Hadamard (elementwise) matrix product, numpy `*` on same-shape arrays. -/
def hadamard (A B : Mat) : Mat := List.zipWith (List.zipWith (· * ·)) A B

/-- Scalar times matrix (numpy scalar broadcast). -/
def smulM (a : ℝ) (A : Mat) : Mat := A.map (fun r => r.map (fun t => a * t))

/-- Matrix divided entrywise by a natural number (numpy `A / n`). -/
def mdivN (A : Mat) (n : Nat) : Mat := A.map (fun r => r.map (fun t => t / (n : ℝ)))

/-- Source `__add_bias`: prepend a constant-1 column to the matrix
(`np.concatenate((ones, X), axis=1)`), identical in both source files. -/
def addBias (X : Mat) : Mat := X.map (fun r => 1 :: r)

/-- The sigmoid `1 / (1 + np.exp(-z))`: `LogisticRegression.__activation_func`
and the `'sigmoid'` branch of `OneHiddenLayerNN.__activation`. -/
def sigmoid (z : ℝ) : ℝ := 1 / (1 + Real.exp (-z))

/-! ## LogisticRegression (`src/logistic_regression.py`) -/

/-- Source `LogisticRegression.__loss`: binary cross entropy
`np.mean(-y * np.log(y_hat) - (1 - y) * np.log(1 - y_hat))`. -/
def LogisticRegression.loss (y_hat y : Vec) : ℝ :=
  (List.zipWith (fun yh yv => -yv * Real.log yh - (1 - yv) * Real.log (1 - yh))
      y_hat y).sum / (y.length : ℝ)

/-- Source `LogisticRegression.__d_loss`: `np.dot(X.T, y_hat - y) / y.size`. -/
def LogisticRegression.d_loss (X : Mat) (y_hat y : Vec) : Vec :=
  vdivN (matVec (transpose X) (vsub y_hat y)) y.length

/-- One iteration of the `fit` loop's weight update:
`W -= alpha * __d_loss(X, sigmoid(X @ W), y)` (the argument `X` is the
bias-augmented input). -/
def lrStep (alpha : ℝ) (X : Mat) (y : Vec) (W : Vec) : Vec :=
  let z := matVec X W
  let y_hat := z.map sigmoid
  let gradient := LogisticRegression.d_loss X y_hat y
  vsub W (vsmul alpha gradient)

/-- The body of the `fit` loop at iteration `i`, threading the weight vector
together with the list of loss values printed so far: every 100th iteration
the loss at the updated weights is recomputed and emitted. -/
def lrBody (alpha : ℝ) (X : Mat) (y : Vec) (st : Vec × List ℝ) (i : Nat) :
    Vec × List ℝ :=
  let W := lrStep alpha X y st.1
  if i % 100 == 0 then
    (W, st.2 ++ [LogisticRegression.loss ((matVec X W).map sigmoid) y])
  else
    (W, st.2)

/-- Source `LogisticRegression.fit(X, y)`: bias-augment `X`, zero-initialize `W` with
one weight per column of the augmented input, then run `num_iters` iterations
of gradient descent.  The returned pair is the final weight vector and the
sequence of printed loss values (the model of standard output). -/
def LogisticRegression.fit (num_iters : Nat) (alpha : ℝ) (X : Mat) (y : Vec) :
    Vec × List ℝ :=
  let Xb := addBias X
  (List.range num_iters).foldl (lrBody alpha Xb y)
    (List.replicate (ncols Xb) 0, [])

/-- Source `LogisticRegression.predict_prob(X)`: `sigmoid(np.dot(X, W))`; the caller
passes `X` already bias-augmented. -/
def LogisticRegression.predict_prob (W : Vec) (X : Mat) : Vec :=
  (matVec X W).map sigmoid

/-- Source `LogisticRegression.predict(X, threshold)`: `predict_prob(X) >= threshold`
as a boolean vector. -/
def LogisticRegression.predict (W : Vec) (X : Mat) (threshold : ℝ) : List Bool :=
  (LogisticRegression.predict_prob W X).map (fun p => decide (threshold ≤ p))

/-! ## OneHiddenLayerNN (`src/one_hidden_layer_nn.py`) -/

/-- Source `OneHiddenLayerNN.__activation(z, func_name)`: dispatch on the activation
name, applied elementwise to the whole array.  A name other than `'relu'`,
`'tanh'`, `'sigmoid'` falls off the `if/elif` chain and returns `None`. -/
def OneHiddenLayerNN.activation (z : Mat) (func_name : String) : Option Mat :=
  if func_name = "relu" then
    some (z.map (fun r => r.map (fun t => max t 0)))
  else if func_name = "tanh" then
    some (z.map (fun r => r.map Real.tanh))
  else if func_name = "sigmoid" then
    some (z.map (fun r => r.map sigmoid))
  else
    none

/-- The relu branch of `__d_activation` on one entry: copy the output, set the
entries `<= 0` to `0`, then the entries `> 0` to `1` (the two masked
assignments of the source, applied in order). -/
def reluMask (o : ℝ) : ℝ :=
  let t := o
  let t := if o ≤ 0 then 0 else t
  if 0 < o then 1 else t

/-- Source `OneHiddenLayerNN.__d_activation(func_out, func_name)`: the derivative of
each activation computed from the activation's output value; unrecognized
names again return `None`. -/
def OneHiddenLayerNN.d_activation (func_out : Mat) (func_name : String) :
    Option Mat :=
  if func_name = "relu" then
    some (func_out.map (fun r => r.map reluMask))
  else if func_name = "tanh" then
    some (func_out.map (fun r => r.map (fun o => 1 - o * o)))
  else if func_name = "sigmoid" then
    some (func_out.map (fun r => r.map (fun o => o * (1 - o))))
  else
    none

/-- Source `OneHiddenLayerNN.__loss`: `np.sum(np.square(a_out - a)) / a.shape[0]`. -/
def OneHiddenLayerNN.loss (a_out a : Mat) : ℝ :=
  ((msub a_out a).map (fun r => (r.map (fun t => t * t)).sum)).sum / (a.length : ℝ)

/-- Source `OneHiddenLayerNN.__d_out(a_h, a_o, a)`:
`alpha * np.dot(a_h.T, 2 * (a_o - a) * __d_activation(a_o, out_func)) / a.shape[0]`
(`a_h` is the bias-augmented hidden output; `None` when the output-activation
name is unsupported). -/
def OneHiddenLayerNN.d_out (alpha : ℝ) (out_func : String) (a_h a_o a : Mat) :
    Option Mat := do
  let da ← OneHiddenLayerNN.d_activation a_o out_func
  let d_loss := matMul (transpose a_h) (hadamard (smulM 2 (msub a_o a)) da)
  return mdivN (smulM alpha d_loss) a.length

/-- Source `OneHiddenLayerNN._d_hidden(X, a_h, a_o, a)`:
`alpha * np.dot(X.T, np.dot(2 * (a_o - a) * __d_activation(a_o, out_func), W_out[1:].T) * __d_activation(a_h, hidden_func)) / a.shape[0]`;
`W_out[1:]` drops the first (bias) row of `W_out`. -/
def OneHiddenLayerNN.d_hidden (alpha : ℝ) (hidden_func out_func : String)
    (X a_h a_o a W_out : Mat) : Option Mat := do
  let da_o ← OneHiddenLayerNN.d_activation a_o out_func
  let da_h ← OneHiddenLayerNN.d_activation a_h hidden_func
  let d_loss := matMul (transpose X)
    (hadamard (matMul (hadamard (smulM 2 (msub a_o a)) da_o)
                      (transpose (W_out.drop 1)))
              da_h)
  return mdivN (smulM alpha d_loss) a.length

/-- Source `OneHiddenLayerNN.__forward_backward_prop(X, y)` on the state
`(W_h, W_out)`: forward through both layers, compute both gradients with the
current weights, then update both weight matrices. -/
def OneHiddenLayerNN.fbStep (alpha : ℝ) (hidden_func out_func : String)
    (X y : Mat) (st : Mat × Mat) : Option (Mat × Mat) := do
  let z_h := matMul X st.1
  let a_h ← OneHiddenLayerNN.activation z_h hidden_func
  let a_h_b := addBias a_h
  let z_o := matMul a_h_b st.2
  let a_o ← OneHiddenLayerNN.activation z_o out_func
  let d_out ← OneHiddenLayerNN.d_out alpha out_func a_h_b a_o y
  let d_hidden ← OneHiddenLayerNN.d_hidden alpha hidden_func out_func X a_h a_o y st.2
  return (msub st.1 d_hidden, msub st.2 d_out)

/-- Python slice `X[a:b]` for non-negative bounds. -/
def pySlice (X : Mat) (a b : Nat) : Mat := (X.take b).drop a

/-- Python slice `X[-r:]` for a non-negative `r`: the last `r` rows, except
that `r = 0` gives `X[-0:] = X[0:]`, the whole list. -/
def pyNegSlice (X : Mat) (r : Nat) : Mat :=
  if r = 0 then X else X.drop (X.length - r)

/-- Source `batch_iters = int(X.shape[0] / self.batch_size)`. -/
def batchIters (n bs : Nat) : Nat := n / bs

/-- Source `batch_rem = X.shape[0] - self.batch_size * batch_iters`. -/
def batchRem (n bs : Nat) : Nat := n - bs * batchIters n bs

/-- One epoch of `OneHiddenLayerNN.fit`'s inner loop: the `batch_iters`
contiguous fixed-size batches in order, then the `X[-batch_rem:]` remainder
slice (`X` is the bias-augmented input). -/
def OneHiddenLayerNN.epoch (alpha : ℝ) (hidden_func out_func : String)
    (bs : Nat) (X y : Mat) (st : Mat × Mat) : Option (Mat × Mat) :=
  let bi := batchIters X.length bs
  let br := batchRem X.length bs
  ((List.range bi).foldl
      (fun acc j => acc.bind
        (OneHiddenLayerNN.fbStep alpha hidden_func out_func
          (pySlice X (j * bs) ((j + 1) * bs)) (pySlice y (j * bs) ((j + 1) * bs))))
      (some st)).bind
    (OneHiddenLayerNN.fbStep alpha hidden_func out_func
      (pyNegSlice X br) (pyNegSlice y br))

/-- Source `OneHiddenLayerNN.predict_prob(X)`: the forward pass only (`X` must
already carry the bias column). -/
def OneHiddenLayerNN.predict_prob (W_h W_out : Mat)
    (hidden_func out_func : String) (X : Mat) : Option Mat := do
  let z_h := matMul X W_h
  let a_h ← OneHiddenLayerNN.activation z_h hidden_func
  let a_h_b := addBias a_h
  let z_o := matMul a_h_b W_out
  let a_o ← OneHiddenLayerNN.activation z_o out_func
  return a_o

/-- Source `OneHiddenLayerNN.fit(X, y)` given the (random) initial weights as
arguments: bias-augment `X`, then for each epoch run all batches and, every
100th epoch, record the full-training-set loss.  The result pairs the final
weights with the printed loss values; `none` models the exception raised when
an activation name is unsupported. -/
def OneHiddenLayerNN.fit (epochs bs : Nat) (alpha : ℝ)
    (hidden_func out_func : String) (W_h0 W_out0 : Mat) (X y : Mat) :
    Option ((Mat × Mat) × List ℝ) :=
  let Xb := addBias X
  (List.range epochs).foldl
    (fun acc i => acc.bind (fun st =>
      (OneHiddenLayerNN.epoch alpha hidden_func out_func bs Xb y st.1).bind
        (fun w =>
          if i % 100 == 0 then
            (OneHiddenLayerNN.predict_prob w.1 w.2 hidden_func out_func Xb).map
              (fun a_o => (w, st.2 ++ [OneHiddenLayerNN.loss a_o y]))
          else
            some (w, st.2))))
    (some ((W_h0, W_out0), []))

/-- Python truthiness of a numpy boolean array: defined only for a size-1
array (`bool(arr)` raises otherwise). -/
def npTruth (v : List Bool) : Option Bool :=
  match v with
  | [b] => some b
  | _ => none

/-- The comparison the Python builtin `max` performs between two rows of a
numpy array: elementwise `>` followed by truthiness. -/
def vecGtB (a b : Vec) : Option Bool :=
  npTruth (List.zipWith (fun x y => decide (y < x)) a b)

/-- The Python builtin `max` over the rows of a 2-D array: `None` on an empty
array (ValueError), otherwise a left fold keeping the current maximum, each
comparison subject to numpy truthiness. -/
def pyMax (rows : Mat) : Option Vec :=
  match rows with
  | [] => none
  | r :: rs =>
      rs.foldlM (fun cur c => (vecGtB c cur).map (fun b => if b then c else cur)) r

/-- Source `np.where(max_value == a_o)[0]`: the first-axis indices of the entries of
`a_o` equal to the broadcast row `max_value`, in order, with one occurrence
per matching column. -/
def npWhereRows (max_value : Vec) (a_o : Mat) : List Nat :=
  (List.range a_o.length).flatMap (fun i =>
    (((a_o.getD i []).zip max_value).filter (fun q => decide (q.1 = q.2))).map
      (fun _ => i))

/-- Source `OneHiddenLayerNN.predict(X)`: compute `predict_prob`, take the maximum,
locate where it occurs, and produce the display line's payload (indices and
maximum value) — the function returns no structured prediction. -/
def OneHiddenLayerNN.predict (W_h W_out : Mat)
    (hidden_func out_func : String) (X : Mat) : Option (List Nat × Vec) := do
  let a_o ← OneHiddenLayerNN.predict_prob W_h W_out hidden_func out_func X
  let max_value ← pyMax a_o
  let max_index := npWhereRows max_value a_o
  return (max_index, max_value)

/-! ## Method-call wrappers with explicit model state

The Python methods read and write fields of `self`; the wrappers below pass
the instance state explicitly and return it next to the method's value, so
that frame conditions are statements rather than conventions. -/

/-- The fields of a `LogisticRegression` instance. -/
structure LRModel where
  num_iters : Nat
  alpha : ℝ
  W : Vec

/-- Method call `self.predict_prob(X)`: value and resulting instance state. -/
def LRModel.predict_probM (m : LRModel) (X : Mat) : Vec × LRModel :=
  (LogisticRegression.predict_prob m.W X, m)

/-- Method call `self.predict(X, threshold)`. -/
def LRModel.predictM (m : LRModel) (X : Mat) (threshold : ℝ) :
    List Bool × LRModel :=
  let p := m.predict_probM X
  ((p.1.map (fun v => decide (threshold ≤ v))), p.2)

/-- The fields of a `OneHiddenLayerNN` instance. -/
structure NNModel where
  nn_size : Nat
  epochs : Nat
  alpha : ℝ
  W_h : Mat
  W_out : Mat
  batch_size : Nat
  hidden_func : String
  out_func : String

/-- Method call `self.predict_prob(X)`: value and resulting instance state. -/
def NNModel.predict_probM (m : NNModel) (X : Mat) : Option Mat × NNModel :=
  (OneHiddenLayerNN.predict_prob m.W_h m.W_out m.hidden_func m.out_func X, m)

/-- Method call `self.predict(X)`. -/
def NNModel.predictM (m : NNModel) (X : Mat) :
    Option (List Nat × Vec) × NNModel :=
  (OneHiddenLayerNN.predict m.W_h m.W_out m.hidden_func m.out_func X, m)

/-! ## Helper lemmas -/

/-- The two masked assignments of the relu derivative amount to the indicator
of strict positivity (in particular the value at `0` is `0`). -/
lemma reluMask_eq (o : ℝ) : reluMask o = if 0 < o then 1 else 0 := by
  unfold reluMask
  by_cases h : 0 < o
  · simp [h]
  · simp [h, le_of_not_lt h]

/-- C4: for each supported name the derivative is computed from the
activation's output: the strict-positivity indicator for relu (value `0` at
output exactly `0`), `1 - output²` for tanh, and `output·(1 - output)` for
sigmoid. -/
theorem claim_C4 (F : Mat) :
    OneHiddenLayerNN.d_activation F "relu"
        = some (F.map (fun r => r.map (fun o => if 0 < o then 1 else 0)))
  ∧ OneHiddenLayerNN.d_activation F "tanh"
        = some (F.map (fun r => r.map (fun o => 1 - o ^ 2)))
  ∧ OneHiddenLayerNN.d_activation F "sigmoid"
        = some (F.map (fun r => r.map (fun o => o * (1 - o))))
  ∧ reluMask 0 = 0 := by
  have hrelu : reluMask = fun o : ℝ => if 0 < o then 1 else 0 := funext reluMask_eq
  have hsq : (fun o : ℝ => 1 - o * o) = fun o : ℝ => 1 - o ^ 2 := by
    funext o; ring
  refine ⟨?_, ?_, ?_, ?_⟩
  · simp [OneHiddenLayerNN.d_activation, hrelu]
  · simp [OneHiddenLayerNN.d_activation, hsq]
  · simp [OneHiddenLayerNN.d_activation]
  · simp [reluMask_eq]

/-- C6: the activation dispatch (and the derivative dispatch) produces a value
exactly for the three supported names and `none` for every other string. -/
theorem claim_C6 (z : Mat) (name : String) :
    ((OneHiddenLayerNN.activation z name).isSome
        ↔ (name = "relu" ∨ name = "tanh" ∨ name = "sigmoid"))
  ∧ ((OneHiddenLayerNN.d_activation z name).isSome
        ↔ (name = "relu" ∨ name = "tanh" ∨ name = "sigmoid")) := by
  constructor
  · unfold OneHiddenLayerNN.activation
    split_ifs with h1 h2 h3 <;> simp_all
  · unfold OneHiddenLayerNN.d_activation
    split_ifs with h1 h2 h3 <;> simp_all

/-- C9: for both components, `predict_prob` and `predict` return the instance
state unchanged, and a second `predict_prob` call on the state left by the
first returns the identical value. -/
theorem claim_C9 (m : LRModel) (nm : NNModel) (X : Mat) (t : ℝ) :
    (m.predict_probM X).2 = m
  ∧ (m.predictM X t).2 = m
  ∧ (nm.predict_probM X).2 = nm
  ∧ (nm.predictM X).2 = nm
  ∧ ((m.predict_probM X).2.predict_probM X).1 = (m.predict_probM X).1
  ∧ ((nm.predict_probM X).2.predict_probM X).1 = (nm.predict_probM X).1 :=
  ⟨rfl, rfl, rfl, rfl, rfl, rfl⟩

/-- C7: `predict` is the composition prob-forward-pass → maximum →
where-indices, returning only the display payload; a one-row result is its own
maximum, and the located indices are exactly the first-axis positions holding
an entry equal to the broadcast maximum row. -/
theorem claim_C7 (W_h W_out : Mat) (hf outf : String) (X : Mat) :
    OneHiddenLayerNN.predict W_h W_out hf outf X
      = (OneHiddenLayerNN.predict_prob W_h W_out hf outf X).bind
          (fun a_o => (pyMax a_o).bind
            (fun max_value => some (npWhereRows max_value a_o, max_value)))
  ∧ (∀ r : Vec, pyMax [r] = some r)
  ∧ (∀ (mv : Vec) (A : Mat) (i : Nat),
      i ∈ npWhereRows mv A
        ↔ i < A.length ∧ ∃ p ∈ (A.getD i []).zip mv, p.1 = p.2) := by
  refine ⟨rfl, fun r => rfl, fun mv A i => ?_⟩
  simp only [npWhereRows, List.mem_flatMap, List.mem_range, List.mem_map,
    List.mem_filter, decide_eq_true_eq]
  constructor
  · rintro ⟨j, hj, p, ⟨hp, hpe⟩, rfl⟩
    exact ⟨hj, p, hp, hpe⟩
  · rintro ⟨hi, p, hp, hpe⟩
    exact ⟨i, hi, p, ⟨hp, hpe⟩, rfl⟩

/-- For a supported activation name the dispatch returns a value, and the
elementwise application preserves the row count. -/
lemma activation_some_of_supported (z : Mat) (name : String)
    (h : name = "relu" ∨ name = "tanh" ∨ name = "sigmoid") :
    ∃ A, OneHiddenLayerNN.activation z name = some A ∧ A.length = z.length := by
  rcases h with h | h | h <;> subst h
  · exact ⟨z.map (fun r => r.map (fun t => max t 0)),
      by simp [OneHiddenLayerNN.activation], by simp⟩
  · exact ⟨z.map (fun r => r.map Real.tanh),
      by simp [OneHiddenLayerNN.activation], by simp⟩
  · exact ⟨z.map (fun r => r.map sigmoid),
      by simp [OneHiddenLayerNN.activation], by simp⟩

/-- C8: for both components the number of rows of `predict_prob(X)` equals the
number of rows of `X` (for the network, whenever both activation names are
supported so a value is produced at all). -/
theorem claim_C8 (W : Vec) (W_h W_out : Mat) (hf outf : String) (X : Mat)
    (hh : hf = "relu" ∨ hf = "tanh" ∨ hf = "sigmoid")
    (ho : outf = "relu" ∨ outf = "tanh" ∨ outf = "sigmoid") :
    (LogisticRegression.predict_prob W X).length = X.length
  ∧ ∃ A, OneHiddenLayerNN.predict_prob W_h W_out hf outf X = some A
        ∧ A.length = X.length := by
  constructor
  · simp [LogisticRegression.predict_prob, matVec]
  · obtain ⟨a_h, ha, hlen⟩ := activation_some_of_supported (matMul X W_h) hf hh
    obtain ⟨a_o, hoa, hlen2⟩ :=
      activation_some_of_supported (matMul (addBias a_h) W_out) outf ho
    refine ⟨a_o, ?_, ?_⟩
    · simp [OneHiddenLayerNN.predict_prob, ha, hoa]
    · rw [hlen2]
      simp [matMul, addBias] at hlen ⊢
      simpa [matVec] using hlen

/-- C8 at a concrete input: one row in, one row out, for both components. -/
theorem claim_C8_witness :
    (LogisticRegression.predict_prob [1] [[1]]).length = 1
  ∧ ∃ A, OneHiddenLayerNN.predict_prob [[1]] [[1], [1]] "relu" "relu" [[1]]
          = some A ∧ A.length = 1 :=
  claim_C8 [1] [[1]] [[1], [1]] "relu" "relu" [[1]] (Or.inl rfl) (Or.inl rfl)

/-- The sigmoid of a real is strictly positive. -/
lemma sigmoid_pos (z : ℝ) : 0 < sigmoid z := by
  unfold sigmoid
  positivity

/-- The sigmoid of a real is strictly below one. -/
lemma sigmoid_lt_one (z : ℝ) : sigmoid z < 1 := by
  unfold sigmoid
  rw [div_lt_one (by positivity)]
  linarith [Real.exp_pos (-z)]

/-- The sigmoid at zero is one half. -/
lemma sigmoid_zero : sigmoid 0 = 1 / 2 := by
  simp [sigmoid]
  norm_num

/-- C10: every entry of the logistic model's `predict_prob` lies strictly
between 0 and 1, so `predict` is all-true for any threshold `≤ 0` and
all-false for any threshold `> 1`. -/
theorem claim_C10 (W : Vec) (X : Mat) :
    (∀ p ∈ LogisticRegression.predict_prob W X, 0 < p ∧ p < 1)
  ∧ (∀ t : ℝ, t ≤ 0 →
      LogisticRegression.predict W X t = List.replicate X.length true)
  ∧ (∀ t : ℝ, 1 < t →
      LogisticRegression.predict W X t = List.replicate X.length false) := by
  have hmem : ∀ p ∈ LogisticRegression.predict_prob W X, 0 < p ∧ p < 1 := by
    intro p hp
    simp only [LogisticRegression.predict_prob, List.mem_map] at hp
    obtain ⟨z, _, rfl⟩ := hp
    exact ⟨sigmoid_pos z, sigmoid_lt_one z⟩
  refine ⟨hmem, ?_, ?_⟩
  · intro t ht
    rw [List.eq_replicate_iff]
    constructor
    · simp [LogisticRegression.predict, LogisticRegression.predict_prob, matVec]
    · intro b hb
      simp only [LogisticRegression.predict, List.mem_map] at hb
      obtain ⟨p, hp, rfl⟩ := hb
      exact decide_eq_true (ht.trans (hmem p hp).1.le)
  · intro t ht
    rw [List.eq_replicate_iff]
    constructor
    · simp [LogisticRegression.predict, LogisticRegression.predict_prob, matVec]
    · intro b hb
      simp only [LogisticRegression.predict, List.mem_map] at hb
      obtain ⟨p, hp, rfl⟩ := hb
      exact decide_eq_false (not_le.mpr ((hmem p hp).2.trans ht))

/-- Both branches of the training-loop body update the weights in the same
way; only the printed-loss component differs. -/
lemma lrBody_fst (alpha : ℝ) (X : Mat) (y : Vec) (st : Vec × List ℝ) (i : Nat) :
    (lrBody alpha X y st i).1 = lrStep alpha X y st.1 := by
  unfold lrBody
  by_cases h : i % 100 == 0 <;> simp [h]

/-- The weight component of the `fit` loop is the pure iteration of the
gradient step: the interleaved loss printing influences no weight. -/
lemma lrFold_fst (alpha : ℝ) (X : Mat) (y : Vec) :
    ∀ (n : Nat) (st : Vec × List ℝ),
      ((List.range n).foldl (lrBody alpha X y) st).1
        = (lrStep alpha X y)^[n] st.1 := by
  intro n
  induction n with
  | zero => intro st; simp
  | succ k ih =>
      intro st
      rw [List.range_succ, List.foldl_append, List.foldl_cons, List.foldl_nil,
        lrBody_fst, ih st, Function.iterate_succ_apply']

/-- C1: `fit` zero-initializes a weight vector of length feature-count + 1 and
performs exactly `num_iters` iterations of
`W ← W - alpha * X_bᵀ (sigmoid(X_b W) - y) / n`; the periodic loss print
changes no weight. -/
theorem claim_C1 (num_iters : Nat) (alpha : ℝ) (X : Mat) (y : Vec)
    (hX : X ≠ []) :
    (LogisticRegression.fit num_iters alpha X y).1
      = (fun W => vsub W (vsmul alpha (vdivN
          (matVec (transpose (addBias X))
            (vsub ((matVec (addBias X) W).map sigmoid) y)) y.length)))^[num_iters]
          (List.replicate (ncols X + 1) 0) := by
  have hstep : (fun W => vsub W (vsmul alpha (vdivN
      (matVec (transpose (addBias X))
        (vsub ((matVec (addBias X) W).map sigmoid) y)) y.length)))
      = lrStep alpha (addBias X) y := rfl
  have hn : ncols (addBias X) = ncols X + 1 := by
    obtain ⟨r, rs, rfl⟩ := List.exists_cons_of_ne_nil hX
    simp [ncols, addBias]
  rw [hstep]
  unfold LogisticRegression.fit
  rw [lrFold_fst, hn]

/-- C1 at a concrete input: with zero iterations the weights are exactly the
zero vector of length feature-count + 1. -/
theorem claim_C1_witness :
    (LogisticRegression.fit 0 1 [[1]] [0]).1 = List.replicate 2 0 := by
  have h := claim_C1 0 1 [[1]] [0] (by simp)
  simpa [ncols] using h

/-- The dot product with a zero vector vanishes. -/
lemma dot_replicate_zero (v : Vec) : ∀ n, dot v (List.replicate n 0) = 0 := by
  induction v with
  | nil => intro n; simp [dot]
  | cons a v ih =>
      intro n
      cases n with
      | zero => simp [dot]
      | succ k =>
          have := ih k
          simp only [dot, List.replicate_succ, List.zipWith_cons_cons,
            List.sum_cons, mul_zero, zero_add] at this ⊢
          exact this

/-- Indexing a list along `range` of its length is the identity traversal. -/
lemma map_range_getD {α β : Type} (v : List α) (d : α) (f : α → β) :
    (List.range v.length).map (fun j => f (v.getD j d)) = v.map f := by
  induction v with
  | nil => simp
  | cons a v ih =>
      rw [List.length_cons, List.range_succ_eq_map, List.map_cons,
        List.map_map, List.map_cons]
      refine congrArg₂ _ rfl ?_
      have hc : ((fun j => f ((a :: v).getD j d)) ∘ Nat.succ)
          = fun j => f (v.getD j d) := by
        funext j; simp
      rw [hc]
      exact ih

/-- Transposing a one-row matrix yields the column of its entries. -/
lemma transpose_single (v : Vec) :
    transpose [v] = v.map (fun a => [a]) := by
  unfold transpose ncols
  simpa using map_range_getD v 0 (fun a => [a])

/-- The gradient step written out: `lrStep` is literally
`W - alpha * (Xᵀ (sigmoid(X W) - y) / n)`. -/
lemma lrStep_eq (alpha : ℝ) (X : Mat) (y W : Vec) :
    lrStep alpha X y W
      = vsub W (vsmul alpha (vdivN
          (matVec (transpose X) (vsub ((matVec X W).map sigmoid) y))
          y.length)) := rfl

/-- Subtracting a list from a zero vector of its length negates it. -/
lemma zipWith_replicate_zero_sub (l : Vec) :
    List.zipWith (· - ·) (List.replicate l.length (0 : ℝ)) l
      = l.map (fun t => -t) := by
  induction l with
  | nil => simp
  | cons a l ih => simp [List.replicate_succ, ih]

/-- Subtracting a mapped list from a zero vector of its length negates the
mapped values. -/
lemma zipWith_zero_sub_map (l : Vec) (g : ℝ → ℝ) :
    List.zipWith (· - ·) (List.replicate l.length (0 : ℝ)) (l.map g)
      = l.map (fun t => -(g t)) := by
  induction l with
  | nil => simp
  | cons a l ih => simp [List.replicate_succ, ih]

/-- C5: from all-zero weights, one gradient step on the single bias-augmented
example `x` with target `y` yields the weights `-alpha * x * (sigmoid 0 - y)`,
and `sigmoid 0 = 1/2`. -/
theorem claim_C5 (x0 : Vec) (yv alpha : ℝ) :
    (LogisticRegression.fit 1 alpha [x0] [yv]).1
      = (1 :: x0).map (fun t => -(alpha * t * (sigmoid 0 - yv)))
  ∧ sigmoid 0 = 1 / 2 := by
  refine ⟨?_, sigmoid_zero⟩
  have hfit : (LogisticRegression.fit 1 alpha [x0] [yv]).1
      = lrStep alpha [1 :: x0] [yv]
          (List.replicate (x0.length + 1) 0) := by
    simp [LogisticRegression.fit, List.range_succ, lrBody_fst, ncols, addBias]
  have hz : matVec [1 :: x0] (List.replicate (x0.length + 1) 0) = [0] := by
    simpa [matVec] using dot_replicate_zero (1 :: x0) (x0.length + 1)
  have hgrad : matVec (transpose [1 :: x0]) (vsub ([(0 : ℝ)].map sigmoid) [yv])
      = (1 :: x0).map (fun t => t * (sigmoid 0 - yv)) := by
    rw [transpose_single]
    simp [matVec, vsub, dot]
  rw [hfit, lrStep_eq, hz, hgrad]
  unfold vsub vsmul vdivN
  rw [List.map_map, List.map_map]
  have hl : ((1 : ℝ) :: x0).length = x0.length + 1 := by simp
  rw [← hl, zipWith_zero_sub_map]
  refine List.map_congr_left ?_
  intro t _
  simp [Function.comp]
  ring

/-- The remainder the source computes is the arithmetic remainder. -/
lemma batchRem_eq_mod (n bs : Nat) : batchRem n bs = n % bs := by
  have h := Nat.mod_add_div n bs
  unfold batchRem batchIters
  omega

/-- C2: each epoch of the network's `fit` processes `floor(n/bs)` contiguous
slices of exactly `bs` rows followed by the `X[-batch_rem:]` slice; that slice
holds the last `n mod bs` rows when `bs` does not divide `n`, but wraps to the
whole dataset when it does, so the epoch then ends with an extra full-dataset
gradient update. -/
theorem claim_C2 (X y : Mat) (bs : Nat) (alpha : ℝ) (hf outf : String)
    (st : Mat × Mat) (hbs : 0 < bs) :
    (∀ j, j < X.length / bs →
        pySlice X (j * bs) ((j + 1) * bs) = (X.drop (j * bs)).take bs
      ∧ (pySlice X (j * bs) ((j + 1) * bs)).length = bs)
  ∧ (¬ bs ∣ X.length →
        pyNegSlice X (batchRem X.length bs) = X.drop (X.length - X.length % bs)
      ∧ (pyNegSlice X (batchRem X.length bs)).length = X.length % bs)
  ∧ (bs ∣ X.length → pyNegSlice X (batchRem X.length bs) = X)
  ∧ (bs ∣ X.length →
      OneHiddenLayerNN.epoch alpha hf outf bs X y st
        = ((List.range (X.length / bs)).foldl
            (fun acc j => acc.bind
              (OneHiddenLayerNN.fbStep alpha hf outf
                (pySlice X (j * bs) ((j + 1) * bs))
                (pySlice y (j * bs) ((j + 1) * bs))))
            (some st)).bind
          (OneHiddenLayerNN.fbStep alpha hf outf X y)) := by
  have hslice : ∀ j, pySlice X (j * bs) ((j + 1) * bs)
      = (X.drop (j * bs)).take bs := by
    intro j
    unfold pySlice
    rw [List.drop_take]
    congr 1
    rw [Nat.succ_mul, Nat.add_sub_cancel_left]
  have hlen : ∀ j, j < X.length / bs → j * bs + bs ≤ X.length := by
    intro j hj
    have h1 : (j + 1) * bs ≤ (X.length / bs) * bs :=
      Nat.mul_le_mul_right bs hj
    have h2 : (X.length / bs) * bs ≤ X.length := Nat.div_mul_le_self _ _
    calc j * bs + bs = (j + 1) * bs := (Nat.succ_mul j bs).symm
      _ ≤ (X.length / bs) * bs := h1
      _ ≤ X.length := h2
  refine ⟨?_, ?_, ?_, ?_⟩
  · intro j hj
    refine ⟨hslice j, ?_⟩
    rw [hslice j, List.length_take, List.length_drop]
    have := hlen j hj
    omega
  · intro hnd
    have hr : X.length % bs ≠ 0 := fun h => hnd (Nat.dvd_of_mod_eq_zero h)
    have hle : X.length % bs ≤ X.length := Nat.mod_le _ _
    rw [batchRem_eq_mod]
    unfold pyNegSlice
    rw [if_neg hr]
    exact ⟨rfl, by rw [List.length_drop]; omega⟩
  · intro hd
    have h0 : batchRem X.length bs = 0 := by
      rw [batchRem_eq_mod]
      exact Nat.mod_eq_zero_of_dvd hd
    rw [h0]
    rfl
  · intro hd
    have h0 : batchRem X.length bs = 0 := by
      rw [batchRem_eq_mod]
      exact (Nat.mod_eq_zero_of_dvd hd)
    unfold OneHiddenLayerNN.epoch
    rw [h0]
    rfl

/-- C2 at a concrete input: four rows with batch size two — the remainder
slice is the whole dataset and the first fixed batch has exactly two rows. -/
theorem claim_C2_witness :
    pyNegSlice ([[1], [2], [3], [4]] : Mat)
        (batchRem (List.length ([[1], [2], [3], [4]] : Mat)) 2)
      = [[1], [2], [3], [4]]
  ∧ (pySlice ([[1], [2], [3], [4]] : Mat) (0 * 2) ((0 + 1) * 2)).length = 2 := by
  have h := claim_C2 [[1], [2], [3], [4]] [[1], [2], [3], [4]] 2 1 "relu" "relu"
    ([[1]], [[1], [1]]) (by norm_num)
  exact ⟨h.2.2.1 ⟨2, rfl⟩, (h.1 0 (by norm_num)).2⟩

/-- C3: in the backward step the update applied to `W_h` is
`alpha * X_bᵀ [((2 (a_o - y) ⊙ act'(a_o)) · W_out[1:]ᵀ) ⊙ act'(a_h)] / n`:
the first (bias) row `w0` of `W_out` is dropped when the output error is
propagated back to the hidden layer. -/
theorem claim_C3 (alpha : ℝ) (hf outf : String) (X y Wh a_h a_o da_o da_h : Mat)
    (w0 : Vec) (wr : Mat)
    (ha : OneHiddenLayerNN.activation (matMul X Wh) hf = some a_h)
    (ho : OneHiddenLayerNN.activation (matMul (addBias a_h) (w0 :: wr)) outf
            = some a_o)
    (hdo : OneHiddenLayerNN.d_activation a_o outf = some da_o)
    (hdh : OneHiddenLayerNN.d_activation a_h hf = some da_h) :
    OneHiddenLayerNN.fbStep alpha hf outf X y (Wh, w0 :: wr)
      = some
        (msub Wh (mdivN (smulM alpha
            (matMul (transpose X)
              (hadamard
                (matMul (hadamard (smulM 2 (msub a_o y)) da_o) (transpose wr))
                da_h))) y.length),
         msub (w0 :: wr) (mdivN (smulM alpha
            (matMul (transpose (addBias a_h))
              (hadamard (smulM 2 (msub a_o y)) da_o))) y.length)) := by
  unfold OneHiddenLayerNN.fbStep OneHiddenLayerNN.d_out OneHiddenLayerNN.d_hidden
  simp [ha, ho, hdo, hdh]

/-- C3 at a concrete input: one relu unit, all-ones weights, example `1` with
target `0` — the hidden update uses only the non-bias output weight row. -/
theorem claim_C3_witness :
    OneHiddenLayerNN.fbStep 1 "relu" "relu" [[1]] [[0]] ([[1]], [[1], [1]])
      = some
        (msub [[1]] (mdivN (smulM 1
            (matMul (transpose [[1]])
              (hadamard
                (matMul (hadamard (smulM 2 (msub [[2]] [[0]])) [[1]])
                  (transpose [[1]]))
                [[1]]))) (List.length ([[0]] : Mat))),
         msub [[1], [1]] (mdivN (smulM 1
            (matMul (transpose (addBias [[1]]))
              (hadamard (smulM 2 (msub [[2]] [[0]])) [[1]])))
            (List.length ([[0]] : Mat)))) := by
  refine claim_C3 1 "relu" "relu" [[1]] [[0]] [[1]] [[1]] [[2]] [[1]] [[1]]
    [1] [[1]] ?_ ?_ ?_ ?_ <;>
  · simp [OneHiddenLayerNN.activation, OneHiddenLayerNN.d_activation, matMul,
      transpose, ncols, dot, addBias, reluMask, List.range_succ]
    try norm_num [max_eq_left]
